import Mathlib

/-!
Shallow embedding of `src/backend/websocket_server.py` and
`src/backend/websocket_manager.py` (StockAndOption_Prediction).

The `StockWebSocketServer` class keeps
  * `clients    : Dict[websocket, Set[str]]`  — the connection registry,
  * `stock_data : Dict[str, dict]`            — the symbol snapshot cache,
  * `running    : bool` and `server`          — lifecycle state.
Connections are modelled by an identity `Conn := Nat`; Python dicts become
association lists with dict update semantics; Python sets of symbols become
`Finset String`.  All operations below are transcribed from the source.
-/

namespace StockWS

abbrev Conn := Nat
abbrev Symbol := String

/-- Python's `str.upper()` (used as `symbol.upper()` throughout the
source), modelled as per-character uppercasing. -/
def upper (s : String) : String := ⟨s.data.map Char.toUpper⟩

/-- The snapshot dictionary built by `fetch_stock_data` (lines 165-172):
keys price, size, timestamp, exchange, conditions, updated_at. -/
structure Snapshot where
  price : Int
  size : Int
  timestamp : Int
  exchange : Int
  conditions : List Int
  updated_at : String
deriving DecidableEq, Repr

/-- The `results` payload of the Polygon response: fields `p`, `s`, `t`,
`x`, `c`, each possibly absent (`result.get` with a default). -/
structure UpstreamResult where
  p : Option Int
  s : Option Int
  t : Option Int
  x : Option Int
  c : Option (List Int)
deriving DecidableEq, Repr

/-- Outcome of the single `requests.get` call in `fetch_stock_data`:
either the call raises (transport failure, caught at line 174) or it
returns a status code together with the parsed `results` payload
(`none` covers both a missing `results` key and a falsy empty dict,
line 162-164). -/
inductive HttpResponse where
  | failure
  | response (status : Nat) (results : Option UpstreamResult)
deriving DecidableEq, Repr

/-- Messages pushed from server to client: `stock_update` (lines 81-85,
196-200) and `pong` (line 121). -/
inductive OutMsg where
  | stock_update (symbol : Symbol) (data : Snapshot)
  | pong (timestamp : String)
deriving DecidableEq, Repr

/-- One outbound push: destination connection and message. -/
structure Push where
  conn : Conn
  msg : OutMsg
deriving DecidableEq, Repr

/-- A parsed inbound client message.  `parseFailure` covers
`json.JSONDecodeError` and any other exception raised while reading the
payload (lines 126-129); otherwise the handler reads the optional
`action` and `symbol` fields with `dict.get` (lines 108, 111, 116). -/
inductive InMsg where
  | parseFailure
  | msg (action : Option String) (symbol : Option String)
deriving DecidableEq, Repr

/-- Dict lookup on an association list (`d[k]` / `k in d`). -/
def dictGet (l : List (Conn × Finset Symbol)) (k : Conn) : Option (Finset Symbol) :=
  (l.find? (fun e => e.1 == k)).map (fun e => e.2)

/-- Dict assignment `d[k] = v`: overwrite the existing entry, else append. -/
def dictSet (l : List (Conn × Finset Symbol)) (k : Conn) (v : Finset Symbol) :
    List (Conn × Finset Symbol) :=
  if l.any (fun e => e.1 == k) then
    l.map (fun e => if e.1 == k then (k, v) else e)
  else l ++ [(k, v)]

/-- Cache lookup `self.stock_data.get(sym)` / `sym in self.stock_data`. -/
def cacheGet (cache : List (Symbol × Snapshot)) (sym : Symbol) : Option Snapshot :=
  (cache.find? (fun e => e.1 == sym)).map (fun e => e.2)

/-- Cache assignment `self.stock_data[sym] = data`. -/
def cacheSet (cache : List (Symbol × Snapshot)) (sym : Symbol) (snap : Snapshot) :
    List (Symbol × Snapshot) :=
  if cache.any (fun e => e.1 == sym) then
    cache.map (fun e => if e.1 == sym then (sym, snap) else e)
  else cache ++ [(sym, snap)]

/-- The mutable state of `StockWebSocketServer`: `clients`, `stock_data`,
`running`, and `server` (`none` before `start_server`, `some b` with `b`
recording whether the listening socket is still open). -/
structure ServerState where
  clients : List (Conn × Finset Symbol)
  stock_data : List (Symbol × Snapshot)
  running : Bool
  server : Option Bool
deriving DecidableEq

/-- `register` (lines 51-58): `self.clients[websocket] = set()`. -/
def register (st : ServerState) (ws : Conn) : ServerState :=
  { st with clients := dictSet st.clients ws ∅ }

/-- `unregister` (lines 60-68): `if websocket in self.clients: del ...`. -/
def unregister (st : ServerState) (ws : Conn) : ServerState :=
  { st with clients := st.clients.filter (fun e => e.1 != ws) }

/-- `subscribe` (lines 70-86): if the connection is registered, add the
uppercased symbol to its set and, when the cache already holds a snapshot
for that symbol, immediately send it to this connection. -/
def subscribe (st : ServerState) (ws : Conn) (symbol : String) :
    ServerState × List Push :=
  if st.clients.any (fun e => e.1 == ws) then
    ({ st with clients := st.clients.map (fun e =>
        if e.1 == ws then (e.1, insert (upper symbol) e.2) else e) },
     match cacheGet st.stock_data (upper symbol) with
     | some d => [⟨ws, OutMsg.stock_update (upper symbol) d⟩]
     | none => [])
  else (st, [])

/-- `unsubscribe` (lines 88-97): remove the uppercased symbol from the
connection's set when the connection is registered and the symbol is a
member. -/
def unsubscribe (st : ServerState) (ws : Conn) (symbol : String) : ServerState :=
  if (dictGet st.clients ws).elim false (fun s => (upper symbol) ∈ s) then
    { st with clients := st.clients.map (fun e =>
        if e.1 == ws then (e.1, e.2.erase (upper symbol)) else e) }
  else st

/-- `handle_message` (lines 99-129).  A parse failure is logged and
ignored; `subscribe`/`unsubscribe` require a truthy `symbol` field
(Python: `if symbol:` — `None` and the empty string are falsy); `ping`
answers with a `pong`; any other action only logs a warning. -/
def handle_message (now : String) (st : ServerState) (ws : Conn) (m : InMsg) :
    ServerState × List Push :=
  match m with
  | InMsg.parseFailure => (st, [])
  | InMsg.msg action symbol =>
    if action == some "subscribe" then
      match symbol with
      | some s => if s.isEmpty then (st, []) else subscribe st ws s
      | none => (st, [])
    else if action == some "unsubscribe" then
      match symbol with
      | some s => if s.isEmpty then (st, []) else (unsubscribe st ws s, [])
      | none => (st, [])
    else if action == some "ping" then
      (st, [⟨ws, OutMsg.pong now⟩])
    else
      (st, [])

/-- `fetch_stock_data` (lines 147-176) applied to the outcome of its one
HTTP request.  A 200 status with a truthy `results` payload yields the
snapshot dictionary (absent fields default to `0`, `conditions` to `[]`,
`updated_at` to the retrieval time `now`); every other outcome — raised
exception, non-200 status, or missing/empty `results` — yields `none`. -/
def fetch_stock_data (now : String) (resp : HttpResponse) : Option Snapshot :=
  match resp with
  | HttpResponse.failure => none
  | HttpResponse.response status results =>
    if status == 200 then
      match results with
      | some r =>
        some { price := r.p.getD 0, size := r.s.getD 0, timestamp := r.t.getD 0,
               exchange := r.x.getD 0, conditions := r.c.getD [],
               updated_at := now }
      | none => none
    else none

/-- `fetch_stock_data` against the transport modelled as a trace of
responses the feed would give to successive requests: the function body
contains a single `requests.get` and no retry loop, so exactly one
response is consumed. -/
def fetch_stock_data_trace (now : String) (responses : List HttpResponse) :
    Option Snapshot × List HttpResponse :=
  match responses with
  | [] => (none, [])
  | r :: rest => (fetch_stock_data now r, rest)

/-- Line 182-184: union of all connections' subscription sets. -/
def allSymbols (clients : List (Conn × Finset Symbol)) : Finset Symbol :=
  clients.foldl (fun acc e => acc ∪ e.2) ∅

/-- The iteration order of `for symbol in all_symbols` — a Python set
yields each element exactly once; we fix the sorted enumeration. -/
def allSymbolsList (clients : List (Conn × Finset Symbol)) : List Symbol :=
  (allSymbols clients).sort (fun a b => a ≤ b)

/-- Lines 192-202: push one symbol's fresh snapshot to every connection
whose subscription set contains the symbol (in registry order). -/
def pushesFor (clients : List (Conn × Finset Symbol)) (sym : Symbol) (d : Snapshot) :
    List Push :=
  (clients.filter (fun e => sym ∈ e.2)).map (fun e => ⟨e.1, OutMsg.stock_update sym d⟩)

/-- What one broadcast cycle produced: the updated cache, the pushes sent
(in order), and the symbols for which the fetcher was invoked. -/
structure CycleResult where
  cache : List (Symbol × Snapshot)
  pushes : List Push
  fetched : List Symbol
deriving DecidableEq

/-- The body of the `for symbol in all_symbols` loop (lines 187-202):
fetch the symbol; on success (`if data:`) overwrite the cache entry and
push to the subscribers; on failure skip the symbol. -/
def cycle_step (fetch : Symbol → Option Snapshot)
    (clients : List (Conn × Finset Symbol)) (r : CycleResult) (sym : Symbol) :
    CycleResult :=
  match fetch sym with
  | some d =>
    { cache := cacheSet r.cache sym d,
      pushes := r.pushes ++ pushesFor clients sym d,
      fetched := r.fetched ++ [sym] }
  | none => { r with fetched := r.fetched ++ [sym] }

/-- One iteration of the `while self.running` loop in
`broadcast_updates` (lines 180-205): fetch every currently subscribed
symbol once, updating cache and pushing per symbol. -/
def broadcast_cycle (fetch : Symbol → Option Snapshot)
    (clients : List (Conn × Finset Symbol)) (cache : List (Symbol × Snapshot)) :
    CycleResult :=
  (allSymbolsList clients).foldl (cycle_step fetch clients) ⟨cache, [], []⟩

/-- `n` iterations of the broadcast loop (clients held fixed), with a
per-cycle fetch oracle; the loop body never raises, so each cycle after a
cycle with failures still runs. -/
def run_cycles (fetch : Nat → Symbol → Option Snapshot)
    (clients : List (Conn × Finset Symbol)) :
    List (Symbol × Snapshot) → Nat → List CycleResult
  | _, 0 => []
  | cache, n + 1 =>
    let r := broadcast_cycle (fetch 0) clients cache
    r :: run_cycles (fun i => fetch (i + 1)) clients r.cache n

/-- Registry lifecycle events, to record how often `handler` registers
and unregisters a connection. -/
inductive Event where
  | registered (c : Conn)
  | unregistered (c : Conn)
deriving DecidableEq, Repr

/-- One turn of `async for message in websocket` (lines 140-141):
handle the message from the current state, collecting its pushes. -/
def handler_turn (now : String) (ws : Conn) (acc : ServerState × List Push)
    (m : InMsg) : ServerState × List Push :=
  ((handle_message now acc.1 ws m).1, acc.2 ++ (handle_message now acc.1 ws m).2)

/-- `handler` (lines 131-145): register the connection, handle each
inbound message until the transport closes, and unregister in the
`finally` block. -/
def handler (now : String) (st : ServerState) (ws : Conn) (msgs : List InMsg) :
    ServerState × List Push × List Event :=
  (unregister (msgs.foldl (handler_turn now ws) (register st ws, [])).1 ws,
    (msgs.foldl (handler_turn now ws) (register st ws, [])).2,
    [Event.registered ws, Event.unregistered ws])

/-- `stop` on `StockWebSocketServer` (lines 232-237): clear `running`
(the broadcast loop's guard) and close the listening socket if one
exists. -/
def stop (st : ServerState) : ServerState :=
  { st with running := false, server := st.server.map (fun _ => false) }

/-- The mutable state of the `WebSocketManager` singleton
(`websocket_manager.py`): `server_running` flag and whether a server
thread object exists. -/
structure ManagerState where
  server_running : Bool
  websocket_thread : Bool
deriving DecidableEq, Repr

/-- `WebSocketManager.stop_server` (lines 52-57): when
`self.server_running and self.websocket_thread`, set `server_running`
to `False` and print; the underlying `StockWebSocketServer` is not
touched — no call to its `stop`, so the returned server state is the
input server state. -/
def stop_server (m : ManagerState) (srv : ServerState) : ManagerState × ServerState :=
  if m.server_running && m.websocket_thread then
    ({ m with server_running := false }, srv)
  else (m, srv)

/-- A subscribe or unsubscribe request for one connection, carrying the
raw (not yet uppercased) symbol. -/
inductive SubOp where
  | sub (symbol : String)
  | unsub (symbol : String)
deriving DecidableEq, Repr

/-- The uppercased symbol an operation is about. -/
def SubOp.key : SubOp → Symbol
  | SubOp.sub s => (upper s)
  | SubOp.unsub s => (upper s)

/-- Process a sequence of subscribe/unsubscribe messages for one
connection through the real server operations. -/
def runOps (st : ServerState) (ws : Conn) (ops : List SubOp) : ServerState :=
  ops.foldl
    (fun s op =>
      match op with
      | SubOp.sub sym => (subscribe s ws sym).1
      | SubOp.unsub sym => unsubscribe s ws sym)
    st

/-- Spec-side characterisation: the last operation in `ops` whose
normalised symbol is `u` is a subscribe. -/
def lastOpIsSub (ops : List SubOp) (u : Symbol) : Bool :=
  match ops.reverse.find? (fun op => op.key == u) with
  | some (SubOp.sub _) => true
  | _ => false

/-- Pure-set semantics of one operation on one subscription set, for
relating the stateful fold to the spec characterisation. -/
def applyOp (s : Finset Symbol) (op : SubOp) : Finset Symbol :=
  match op with
  | SubOp.sub sym => insert (upper sym) s
  | SubOp.unsub sym => if (upper sym) ∈ s then s.erase (upper sym) else s

/-! ### Registry lemmas -/

/-- A key-preserving update of the registry commutes with lookup. -/
theorem find?_key_update (l : List (Conn × Finset Symbol)) (ws : Conn)
    (g : Finset Symbol → Finset Symbol) :
    (l.map (fun e => if e.1 == ws then (e.1, g e.2) else e)).find? (fun e => e.1 == ws)
      = (l.find? (fun e => e.1 == ws)).map (fun e => (e.1, g e.2)) := by
  induction l with
  | nil => rfl
  | cons e l ih =>
    simp only [List.map_cons]
    cases hb : (e.1 == ws) with
    | true =>
      rw [if_pos rfl,
        @List.find?_cons_of_pos _ (fun e => e.1 == ws) (e.1, g e.2) _ hb,
        @List.find?_cons_of_pos _ (fun e => e.1 == ws) e _ hb]
      rfl
    | false =>
      rw [if_neg (by simp),
        @List.find?_cons_of_neg _ (fun e => e.1 == ws) e _ (by simp [hb]),
        @List.find?_cons_of_neg _ (fun e => e.1 == ws) e _ (by simp [hb])]
      exact ih

/-- Registration status is what `any` tests in `subscribe`'s guard. -/
theorem any_key_eq_isSome (l : List (Conn × Finset Symbol)) (ws : Conn) :
    l.any (fun e => e.1 == ws) = (l.find? (fun e => e.1 == ws)).isSome := by
  induction l with
  | nil => rfl
  | cons e l ih =>
    cases hb : (e.1 == ws) with
    | true =>
      rw [@List.find?_cons_of_pos _ (fun e => e.1 == ws) e _ hb]
      simp [List.any_cons, hb]
    | false =>
      rw [@List.find?_cons_of_neg _ (fun e => e.1 == ws) e _ (by simp [hb])]
      simp only [List.any_cons, hb, Bool.false_or]
      exact ih

/-- `dictGet` after a key-preserving update of one connection's set. -/
theorem dictGet_key_update (l : List (Conn × Finset Symbol)) (ws : Conn)
    (g : Finset Symbol → Finset Symbol) :
    dictGet (l.map (fun e => if e.1 == ws then (e.1, g e.2) else e)) ws
      = (dictGet l ws).map g := by
  unfold dictGet
  rw [find?_key_update]
  cases l.find? (fun e => e.1 == ws) <;> rfl

/-- Overwriting a present key makes lookup return the new value. -/
theorem find?_overwrite (l : List (Conn × Finset Symbol)) (ws : Conn)
    (v : Finset Symbol) (h : (l.find? (fun e => e.1 == ws)).isSome) :
    (l.map (fun e => if e.1 == ws then (ws, v) else e)).find? (fun e => e.1 == ws)
      = some (ws, v) := by
  induction l with
  | nil => simp at h
  | cons e l ih =>
    simp only [List.map_cons]
    cases hb : (e.1 == ws) with
    | true =>
      rw [if_pos rfl, List.find?_cons_of_pos]
      simp
    | false =>
      rw [if_neg (by simp), List.find?_cons_of_neg _ (by simp [hb])]
      rw [List.find?_cons_of_neg _ (by simp [hb])] at h
      exact ih h

/-- Looking up a key after `dictSet` set it. -/
theorem dictGet_dictSet_self (l : List (Conn × Finset Symbol)) (ws : Conn)
    (v : Finset Symbol) : dictGet (dictSet l ws v) ws = some v := by
  unfold dictSet dictGet
  cases ha : l.any (fun e => e.1 == ws) with
  | true =>
    rw [if_pos rfl]
    rw [any_key_eq_isSome] at ha
    rw [find?_overwrite l ws v ha]
    rfl
  | false =>
    rw [if_neg (by simp [ha])]
    rw [any_key_eq_isSome] at ha
    have hn : l.find? (fun e => e.1 == ws) = none := by
      cases h : l.find? (fun e => e.1 == ws) <;> simp [h] at ha ⊢
    rw [List.find?_append, hn]
    simp

/-- `subscribe` on a registered connection: the connection's set gains
the uppercased symbol; nothing else in the state changes. -/
theorem subscribe_state (st : ServerState) (ws : Conn) (symbol : String)
    (S : Finset Symbol) (h : dictGet st.clients ws = some S) :
    dictGet ((subscribe st ws symbol).1).clients ws = some (insert (upper symbol) S)
      ∧ ((subscribe st ws symbol).1).stock_data = st.stock_data
      ∧ ((subscribe st ws symbol).1).running = st.running
      ∧ ((subscribe st ws symbol).1).server = st.server := by
  have hreg : st.clients.any (fun e => e.1 == ws) = true := by
    rw [any_key_eq_isSome]
    unfold dictGet at h
    cases hf : st.clients.find? (fun e => e.1 == ws) <;> simp [hf] at h ⊢
  have h1 : (subscribe st ws symbol).1 = { st with clients := st.clients.map (fun e =>
      if e.1 == ws then (e.1, insert (upper symbol) e.2) else e) } := by
    unfold subscribe
    rw [hreg, if_pos rfl]
  rw [h1]
  refine ⟨?_, rfl, rfl, rfl⟩
  show dictGet (st.clients.map (fun e =>
      if e.1 == ws then (e.1, insert (upper symbol) e.2) else e)) ws
    = some (insert (upper symbol) S)
  rw [dictGet_key_update st.clients ws (fun s => insert (upper symbol) s), h]
  rfl

/-- `unsubscribe` on a registered connection acts on its set as the
guarded erase; nothing else in the state changes. -/
theorem unsubscribe_state (st : ServerState) (ws : Conn) (symbol : String)
    (S : Finset Symbol) (h : dictGet st.clients ws = some S) :
    dictGet (unsubscribe st ws symbol).clients ws
        = some (if (upper symbol) ∈ S then S.erase (upper symbol) else S)
      ∧ (unsubscribe st ws symbol).stock_data = st.stock_data
      ∧ (unsubscribe st ws symbol).running = st.running
      ∧ (unsubscribe st ws symbol).server = st.server := by
  by_cases hm : (upper symbol) ∈ S
  · have hguard : (dictGet st.clients ws).elim false (fun s => (upper symbol) ∈ s) = true := by
      rw [h]; simpa using hm
    have h1 : unsubscribe st ws symbol = { st with clients := st.clients.map (fun e =>
        if e.1 == ws then (e.1, e.2.erase (upper symbol)) else e) } := by
      unfold unsubscribe
      rw [hguard, if_pos rfl]
    rw [h1, if_pos hm]
    refine ⟨?_, rfl, rfl, rfl⟩
    show dictGet (st.clients.map (fun e =>
        if e.1 == ws then (e.1, e.2.erase (upper symbol)) else e)) ws
      = some (S.erase (upper symbol))
    rw [dictGet_key_update st.clients ws (fun s => s.erase (upper symbol)), h]
    rfl
  · have hguard : (dictGet st.clients ws).elim false (fun s => (upper symbol) ∈ s) = false := by
      rw [h]; simpa using hm
    have h1 : unsubscribe st ws symbol = st := by
      unfold unsubscribe
      rw [hguard, if_neg (by simp)]
    rw [h1, if_neg hm]
    exact ⟨h, rfl, rfl, rfl⟩

/-! ### Cache lemmas -/

/-- Cache presence is what `any` tests in `cacheSet`. -/
theorem cache_any_eq_isSome (c : List (Symbol × Snapshot)) (s : Symbol) :
    c.any (fun e => e.1 == s) = (c.find? (fun e => e.1 == s)).isSome := by
  induction c with
  | nil => rfl
  | cons e l ih =>
    cases hb : (e.1 == s) with
    | true =>
      rw [@List.find?_cons_of_pos _ (fun e => e.1 == s) e _ hb]
      simp [List.any_cons, hb]
    | false =>
      rw [@List.find?_cons_of_neg _ (fun e => e.1 == s) e _ (by simp [hb])]
      simp only [List.any_cons, hb, Bool.false_or]
      exact ih

/-- Overwriting a present cache key makes lookup return the new value. -/
theorem cache_find?_overwrite (c : List (Symbol × Snapshot)) (s : Symbol)
    (d : Snapshot) (h : (c.find? (fun e => e.1 == s)).isSome) :
    (c.map (fun e => if e.1 == s then (s, d) else e)).find? (fun e => e.1 == s)
      = some (s, d) := by
  induction c with
  | nil => simp at h
  | cons e l ih =>
    simp only [List.map_cons]
    cases hb : (e.1 == s) with
    | true =>
      rw [if_pos rfl, List.find?_cons_of_pos]
      simp
    | false =>
      rw [if_neg (by simp), @List.find?_cons_of_neg _ (fun e => e.1 == s) e _ (by simp [hb])]
      rw [@List.find?_cons_of_neg _ (fun e => e.1 == s) e _ (by simp [hb])] at h
      exact ih h

/-- `self.stock_data[sym] = data` makes `sym` map to `data`. -/
theorem cacheGet_cacheSet_self (c : List (Symbol × Snapshot)) (s : Symbol)
    (d : Snapshot) : cacheGet (cacheSet c s d) s = some d := by
  unfold cacheSet cacheGet
  cases ha : c.any (fun e => e.1 == s) with
  | true =>
    rw [if_pos rfl]
    rw [cache_any_eq_isSome] at ha
    rw [cache_find?_overwrite c s d ha]
    rfl
  | false =>
    rw [if_neg (by simp [ha])]
    rw [cache_any_eq_isSome] at ha
    have hn : c.find? (fun e => e.1 == s) = none := by
      cases h : c.find? (fun e => e.1 == s) <;> simp [h] at ha ⊢
    rw [List.find?_append, hn]
    simp

/-- `self.stock_data[sym] = data` does not disturb other symbols. -/
theorem cacheGet_cacheSet_ne (c : List (Symbol × Snapshot)) (s B : Symbol)
    (d : Snapshot) (h : s ≠ B) :
    cacheGet (cacheSet c s d) B = cacheGet c B := by
  unfold cacheSet cacheGet
  cases ha : c.any (fun e => e.1 == s) with
  | true =>
    rw [if_pos rfl]
    have hfind : ∀ (l : List (Symbol × Snapshot)),
        (l.map (fun e => if e.1 == s then (s, d) else e)).find? (fun e => e.1 == B)
          = l.find? (fun e => e.1 == B) := by
      intro l
      induction l with
      | nil => rfl
      | cons e l ih =>
        simp only [List.map_cons]
        cases hb : (e.1 == s) with
        | true =>
          rw [if_pos rfl]
          have heq : e.1 = s := by simpa using hb
          have heB : (e.1 == B) = false := by simp [heq, h]
          rw [@List.find?_cons_of_neg _ (fun e => e.1 == B) (s, d) _ (by simp [h]),
            @List.find?_cons_of_neg _ (fun e => e.1 == B) e _ (by simp [heB])]
          exact ih
        | false =>
          rw [if_neg (by simp)]
          cases hc : (e.1 == B) with
          | true =>
            rw [@List.find?_cons_of_pos _ (fun e => e.1 == B) e _ hc,
              @List.find?_cons_of_pos _ (fun e => e.1 == B) e _ hc]
          | false =>
            rw [@List.find?_cons_of_neg _ (fun e => e.1 == B) e _ (by simp [hc]),
              @List.find?_cons_of_neg _ (fun e => e.1 == B) e _ (by simp [hc])]
            exact ih
    rw [hfind c]
  | false =>
    rw [if_neg (by simp [ha]), List.find?_append]
    have hone : List.find? (fun e => e.1 == B) [(s, d)] = none := by
      simp [h]
    rw [hone]
    cases c.find? (fun e => e.1 == B) <;> rfl

/-! ### Broadcast-cycle lemmas -/

/-- Membership in the union of all subscription sets (lines 182-184). -/
theorem mem_allSymbols (clients : List (Conn × Finset Symbol)) (u : Symbol) :
    u ∈ allSymbols clients ↔ ∃ e ∈ clients, u ∈ e.2 := by
  have key : ∀ (l : List (Conn × Finset Symbol)) (acc : Finset Symbol),
      u ∈ l.foldl (fun acc e => acc ∪ e.2) acc ↔ u ∈ acc ∨ ∃ e ∈ l, u ∈ e.2 := by
    intro l
    induction l with
    | nil =>
      intro acc
      simp
    | cons e l ih =>
      intro acc
      rw [List.foldl_cons, ih]
      simp only [Finset.mem_union, List.mem_cons]
      constructor
      · rintro ((h | h) | ⟨e', he', hu⟩)
        · exact Or.inl h
        · exact Or.inr ⟨e, Or.inl rfl, h⟩
        · exact Or.inr ⟨e', Or.inr he', hu⟩
      · rintro (h | ⟨e', (rfl | he'), hu⟩)
        · exact Or.inl (Or.inl h)
        · exact Or.inl (Or.inr hu)
        · exact Or.inr ⟨e', he', hu⟩
  have h0 := key clients ∅
  unfold allSymbols
  rw [h0]
  simp

/-- The iteration list enumerates exactly the union of subscriptions. -/
theorem mem_allSymbolsList (clients : List (Conn × Finset Symbol)) (u : Symbol) :
    u ∈ allSymbolsList clients ↔ ∃ e ∈ clients, u ∈ e.2 := by
  unfold allSymbolsList
  rw [Finset.mem_sort]
  exact mem_allSymbols clients u

/-- A Python set is iterated without repetition. -/
theorem nodup_allSymbolsList (clients : List (Conn × Finset Symbol)) :
    (allSymbolsList clients).Nodup :=
  Finset.sort_nodup _ _

/-- The fetcher is invoked once per symbol of the iteration list, in
order, whether fetches succeed or fail. -/
theorem cycle_fetched (fetch : Symbol → Option Snapshot)
    (clients : List (Conn × Finset Symbol)) :
    ∀ (syms : List Symbol) (init : CycleResult),
      (syms.foldl (cycle_step fetch clients) init).fetched = init.fetched ++ syms := by
  intro syms
  induction syms with
  | nil =>
    intro init
    simp
  | cons s l ih =>
    intro init
    rw [List.foldl_cons, ih]
    cases hf : fetch s <;> simp [cycle_step, hf]

/-- The pushes of a cycle are the per-symbol pushes of the successfully
fetched symbols, concatenated in iteration order. -/
theorem cycle_pushes (fetch : Symbol → Option Snapshot)
    (clients : List (Conn × Finset Symbol)) :
    ∀ (syms : List Symbol) (init : CycleResult),
      (syms.foldl (cycle_step fetch clients) init).pushes
        = init.pushes ++ syms.flatMap (fun sym =>
            match fetch sym with
            | some d => pushesFor clients sym d
            | none => []) := by
  intro syms
  induction syms with
  | nil =>
    intro init
    simp
  | cons s l ih =>
    intro init
    rw [List.foldl_cons, ih]
    cases hf : fetch s <;> simp [cycle_step, hf]

/-- Symbols not iterated keep their cache entry. -/
theorem cycle_cache_not_mem (fetch : Symbol → Option Snapshot)
    (clients : List (Conn × Finset Symbol)) :
    ∀ (syms : List Symbol) (init : CycleResult) (B : Symbol), B ∉ syms →
      cacheGet (syms.foldl (cycle_step fetch clients) init).cache B
        = cacheGet init.cache B := by
  intro syms
  induction syms with
  | nil =>
    intro init B _
    rfl
  | cons s l ih =>
    intro init B hB
    have hsB : s ≠ B := fun h => hB (h ▸ List.mem_cons_self s l)
    have hBl : B ∉ l := fun h => hB (List.mem_cons_of_mem s h)
    rw [List.foldl_cons, ih _ B hBl]
    cases hf : fetch s with
    | some d => simp [cycle_step, hf, cacheGet_cacheSet_ne _ s B d hsB]
    | none => simp [cycle_step, hf]

/-- A successfully fetched symbol ends the cycle with its fresh snapshot
in the cache. -/
theorem cycle_cache_hit (fetch : Symbol → Option Snapshot)
    (clients : List (Conn × Finset Symbol)) :
    ∀ (syms : List Symbol) (init : CycleResult) (B : Symbol) (d : Snapshot),
      syms.Nodup → B ∈ syms → fetch B = some d →
      cacheGet (syms.foldl (cycle_step fetch clients) init).cache B = some d := by
  intro syms
  induction syms with
  | nil =>
    intro init B d _ hB _
    exact absurd hB (List.not_mem_nil B)
  | cons s l ih =>
    intro init B d hnodup hB hfB
    rcases List.mem_cons.mp hB with rfl | hBl
    · have hBl : B ∉ l := (List.nodup_cons.mp hnodup).1
      rw [List.foldl_cons, cycle_cache_not_mem fetch clients l _ B hBl]
      simp [cycle_step, hfB, cacheGet_cacheSet_self]
    · rw [List.foldl_cons]
      exact ih _ B d (List.nodup_cons.mp hnodup).2 hBl hfB

/-- A symbol whose fetch failed keeps its previous cache entry. -/
theorem cycle_cache_failed (fetch : Symbol → Option Snapshot)
    (clients : List (Conn × Finset Symbol)) :
    ∀ (syms : List Symbol) (init : CycleResult) (A : Symbol), fetch A = none →
      cacheGet (syms.foldl (cycle_step fetch clients) init).cache A
        = cacheGet init.cache A := by
  intro syms
  induction syms with
  | nil =>
    intro init A _
    rfl
  | cons s l ih =>
    intro init A hA
    rw [List.foldl_cons, ih _ A hA]
    cases hf : fetch s with
    | some d =>
      have hsA : s ≠ A := fun h => by
        rw [h, hA] at hf
        exact Option.noConfusion hf
      simp [cycle_step, hf, cacheGet_cacheSet_ne _ s A d hsA]
    | none => simp [cycle_step, hf]

/-- The `while self.running` loop runs cycle after cycle: `n` scheduled
cycles produce `n` cycle results no matter how fetches fail. -/
theorem run_cycles_length (fetch : Nat → Symbol → Option Snapshot)
    (clients : List (Conn × Finset Symbol)) :
    ∀ (n : Nat) (cache : List (Symbol × Snapshot)),
      (run_cycles fetch clients cache n).length = n := by
  intro n
  induction n generalizing fetch with
  | zero =>
    intro cache
    rfl
  | succ n ih =>
    intro cache
    rw [run_cycles]
    simp [ih]

/-! ### Claim theorems: registry idempotence, no-ops, cached pushes -/

/-- C5: for every registry state, unregistering an absent connection
leaves the registry unchanged and raises no error, unregister is
idempotent, and registering (even an already-registered connection)
keeps the registry consistent — keys stay distinct — and leaves the
connection mapped to the empty subscription set. -/
theorem register_unregister_idempotent (st : ServerState) (ws : Conn)
    (hnodup : (st.clients.map Prod.fst).Nodup) :
    (dictGet st.clients ws = none → unregister st ws = st)
      ∧ unregister (unregister st ws) ws = unregister st ws
      ∧ ((register st ws).clients.map Prod.fst).Nodup
      ∧ dictGet (register st ws).clients ws = some ∅ := by
  refine ⟨?_, ?_, ?_, dictGet_dictSet_self st.clients ws ∅⟩
  · intro habs
    have hall : ∀ e ∈ st.clients, (e.1 != ws) = true := by
      intro e he
      have := List.find?_eq_none.mp (by
        unfold dictGet at habs
        cases hf : st.clients.find? (fun e => e.1 == ws) <;> simp [hf] at habs ⊢) e he
      simp at this ⊢
      exact this
    unfold unregister
    rw [List.filter_eq_self.mpr hall]
  · unfold unregister
    simp [List.filter_filter]
  · unfold register dictSet
    cases ha : st.clients.any (fun e => e.1 == ws) with
    | true =>
      rw [if_pos rfl, List.map_map]
      rw [show (Prod.fst ∘ fun (e : Conn × Finset Symbol) =>
          if e.1 == ws then (ws, (∅ : Finset Symbol)) else e)
          = fun e => Prod.fst e from by
        funext e
        by_cases hb : e.1 = ws
        · simp [Function.comp, hb]
        · simp [Function.comp, hb]]
      exact hnodup
    | false =>
      rw [if_neg (by simp [ha]), List.map_append]
      refine List.Nodup.append hnodup (by simp) ?_
      intro a ha1 ha2
      simp only [List.map_cons, List.map_nil, List.mem_singleton] at ha2
      rcases List.mem_map.mp ha1 with ⟨e, he, hfst⟩
      have hany2 : st.clients.any (fun x => x.1 == ws) = true :=
        List.any_eq_true.mpr ⟨e, he, by simp [hfst, ha2]⟩
      rw [hany2] at ha
      exact Bool.noConfusion ha

/-- C9: a subscribe or unsubscribe for a connection that is not in the
registry is a silent no-op — the whole server state is unchanged and no
push (not even the cached-snapshot push) is emitted. -/
theorem unregistered_subscribe_noop (st : ServerState) (ws : Conn) (symbol : String)
    (habs : dictGet st.clients ws = none) :
    subscribe st ws symbol = (st, []) ∧ unsubscribe st ws symbol = st := by
  have hfind : st.clients.find? (fun e => e.1 == ws) = none := by
    unfold dictGet at habs
    cases hf : st.clients.find? (fun e => e.1 == ws) <;> simp [hf] at habs ⊢
  have hany : st.clients.any (fun e => e.1 == ws) = false := by
    rw [any_key_eq_isSome, hfind]
    rfl
  constructor
  · unfold subscribe
    rw [hany, if_neg (by simp)]
  · unfold unsubscribe
    rw [habs, if_neg (by simp)]

/-- C3: a subscribe on a registered connection pushes exactly one
`stock_update` carrying the cached snapshot of the uppercased symbol to
that connection alone when the cache holds one, and pushes nothing when
it does not. -/
theorem subscribe_cached_snapshot_push (st : ServerState) (ws : Conn) (symbol : String)
    (hreg : (dictGet st.clients ws).isSome) :
    (∀ d, cacheGet st.stock_data (upper symbol) = some d →
        (subscribe st ws symbol).2 = [⟨ws, OutMsg.stock_update (upper symbol) d⟩])
      ∧ (cacheGet st.stock_data (upper symbol) = none →
        (subscribe st ws symbol).2 = []) := by
  have hany : st.clients.any (fun e => e.1 == ws) = true := by
    rw [any_key_eq_isSome]
    unfold dictGet at hreg
    simpa using hreg
  have h2 : (subscribe st ws symbol).2
      = (match cacheGet st.stock_data (upper symbol) with
        | some d => [⟨ws, OutMsg.stock_update (upper symbol) d⟩]
        | none => ([] : List Push)) := by
    unfold subscribe
    rw [hany, if_pos rfl]
  constructor
  · intro d hd
    rw [h2, hd]
  · intro hd
    rw [h2, hd]

/-- C10: a successful fetch always yields a snapshot with all six fields
price, size, timestamp, exchange, conditions, updated_at; absent payload
fields default to `0` (and `[]` for conditions) and `updated_at` is the
retrieval time. -/
theorem fetch_snapshot_fields (now : String) (pl : UpstreamResult) :
    ∃ snap, fetch_stock_data now (HttpResponse.response 200 (some pl)) = some snap
      ∧ snap.price = pl.p.getD 0 ∧ snap.size = pl.s.getD 0
      ∧ snap.timestamp = pl.t.getD 0 ∧ snap.exchange = pl.x.getD 0
      ∧ snap.conditions = pl.c.getD [] ∧ snap.updated_at = now :=
  ⟨_, rfl, rfl, rfl, rfl, rfl, rfl, rfl⟩

/-- C7: `WebSocketManager.stop_server` invoked while the manager thinks
the server is running leaves the actual `StockWebSocketServer` state
untouched — the broadcast loop's `running` guard stays `true` and the
listening socket stays as it was — whereas `StockWebSocketServer.stop`
(never invoked by `stop_server`) would clear `running` and close the
socket.  This refutes the claim that `stopServer` stops acceptance,
signals the scheduler, and closes the socket. -/
theorem stop_server_leaves_server_running (clients : List (Conn × Finset Symbol))
    (cache : List (Symbol × Snapshot)) (socket : Option Bool) :
    (stop_server ⟨true, true⟩ ⟨clients, cache, true, socket⟩).2
        = (⟨clients, cache, true, socket⟩ : ServerState)
      ∧ (stop_server ⟨true, true⟩ ⟨clients, cache, true, socket⟩).2.running = true
      ∧ (stop ⟨clients, cache, true, socket⟩).running = false
      ∧ (stop ⟨clients, cache, true, some true⟩).server = some false :=
  ⟨rfl, rfl, rfl, rfl⟩

/-- Witness for C5 at a one-entry registry. -/
theorem register_unregister_idempotent_witness :
    unregister (unregister ⟨[(0, ∅)], [], true, none⟩ 1) 1
        = unregister (⟨[(0, ∅)], [], true, none⟩ : ServerState) 1
      ∧ dictGet (register (⟨[(0, ∅)], [], true, none⟩ : ServerState) 1).clients 1
        = some ∅ :=
  ⟨(register_unregister_idempotent ⟨[(0, ∅)], [], true, none⟩ 1 (by decide)).2.1,
    (register_unregister_idempotent ⟨[(0, ∅)], [], true, none⟩ 1 (by decide)).2.2.2⟩

/-- Witness for C9 at the empty registry. -/
theorem unregistered_subscribe_noop_witness :
    subscribe ⟨[], [], true, none⟩ 0 "aapl" = ((⟨[], [], true, none⟩ : ServerState), [])
      ∧ unsubscribe ⟨[], [], true, none⟩ 0 "aapl" = (⟨[], [], true, none⟩ : ServerState) :=
  unregistered_subscribe_noop ⟨[], [], true, none⟩ 0 "aapl" rfl

/-- Witness for C3: one registered connection, a cached AAPL snapshot. -/
theorem subscribe_cached_snapshot_push_witness :
    (subscribe ⟨[(0, ∅)], [("AAPL", ⟨1, 2, 3, 4, [], "t0"⟩)], true, none⟩ 0 "aapl").2
      = [⟨0, OutMsg.stock_update (upper "aapl") ⟨1, 2, 3, 4, [], "t0"⟩⟩] :=
  (subscribe_cached_snapshot_push
      ⟨[(0, ∅)], [("AAPL", ⟨1, 2, 3, 4, [], "t0"⟩)], true, none⟩ 0 "aapl"
      (by decide)).1 ⟨1, 2, 3, 4, [], "t0"⟩ (by decide)

/-- C4: a broadcast cycle in which no connection subscribes to any
symbol performs zero fetcher calls, writes nothing to the cache and
pushes nothing. -/
theorem empty_subscriptions_skip_cycle (fetch : Symbol → Option Snapshot)
    (clients : List (Conn × Finset Symbol)) (cache : List (Symbol × Snapshot))
    (h : allSymbols clients = ∅) :
    broadcast_cycle fetch clients cache = ⟨cache, [], []⟩ := by
  unfold broadcast_cycle allSymbolsList
  rw [h, Finset.sort_empty]
  rfl

/-- Witness for C4: two registered connections, both with empty sets. -/
theorem empty_subscriptions_skip_cycle_witness :
    broadcast_cycle (fun _ => none) [(0, ∅), (1, ∅)]
        [("AAPL", ⟨1, 2, 3, 4, [], "t0"⟩)]
      = ⟨[("AAPL", ⟨1, 2, 3, 4, [], "t0"⟩)], [], []⟩ :=
  empty_subscriptions_skip_cycle (fun _ => none) [(0, ∅), (1, ∅)]
    [("AAPL", ⟨1, 2, 3, 4, [], "t0"⟩)] (by decide)

/-- C6: one fetch call consumes exactly one response from the transport
(there is no internal retry); it returns a snapshot exactly when the
response is a 200 status carrying a non-empty results payload, and
yields `none` — never an exception — on transport failure, non-200
status, or missing results; within one broadcast cycle each symbol is
fetched at most once, so a failed symbol is only retried in a later
cycle. -/
theorem fetch_one_request_contract (now : String) (r : HttpResponse)
    (rest : List HttpResponse) (fetch : Symbol → Option Snapshot)
    (clients : List (Conn × Finset Symbol)) (cache : List (Symbol × Snapshot))
    (sym : Symbol) :
    fetch_stock_data_trace now (r :: rest) = (fetch_stock_data now r, rest)
      ∧ ((fetch_stock_data now r).isSome ↔
          ∃ pl, r = HttpResponse.response 200 (some pl))
      ∧ (broadcast_cycle fetch clients cache).fetched.count sym ≤ 1 := by
  refine ⟨rfl, ?_, ?_⟩
  · cases r with
    | failure => simp [fetch_stock_data]
    | response status results =>
      cases results with
      | none =>
        by_cases h200 : status = 200 <;> simp [fetch_stock_data, h200]
      | some pl =>
        by_cases h200 : status = 200
        · subst h200
          simp [fetch_stock_data]
        · simp [fetch_stock_data, h200]
  · have hf : (broadcast_cycle fetch clients cache).fetched
        = allSymbolsList clients := by
      unfold broadcast_cycle
      rw [cycle_fetched]
      rfl
    rw [hf]
    exact List.nodup_iff_count_le_one.mp (nodup_allSymbolsList clients) sym

/-- C2: within one cycle, a fetch failure for subscribed symbol A does
not prevent B's snapshot from reaching the cache and every subscriber of
B; the failed symbol produces no push at all, every push carries a
successfully fetched snapshot (no error payloads exist), the loop still
visits every symbol, and later cycles still run. -/
theorem cycle_fault_isolation (fetch : Symbol → Option Snapshot)
    (clients : List (Conn × Finset Symbol)) (cache : List (Symbol × Snapshot))
    (A B : Symbol) (d : Snapshot) (n : Nat)
    (hAB : A ≠ B) (hA : fetch A = none) (hB : fetch B = some d)
    (hAsub : A ∈ allSymbols clients) (hBsub : B ∈ allSymbols clients) :
    cacheGet (broadcast_cycle fetch clients cache).cache B = some d
      ∧ (∀ e ∈ clients, B ∈ e.2 →
          (⟨e.1, OutMsg.stock_update B d⟩ : Push)
            ∈ (broadcast_cycle fetch clients cache).pushes)
      ∧ cacheGet (broadcast_cycle fetch clients cache).cache A = cacheGet cache A
      ∧ (∀ p ∈ (broadcast_cycle fetch clients cache).pushes,
          ∀ dd, p.msg ≠ OutMsg.stock_update A dd)
      ∧ (∀ p ∈ (broadcast_cycle fetch clients cache).pushes,
          ∃ s dd, p.msg = OutMsg.stock_update s dd ∧ fetch s = some dd)
      ∧ (broadcast_cycle fetch clients cache).fetched = allSymbolsList clients
      ∧ (run_cycles (fun _ => fetch) clients cache n).length = n := by
  have hBlist : B ∈ allSymbolsList clients := by
    unfold allSymbolsList
    exact (Finset.mem_sort _).mpr hBsub
  have hpushes : (broadcast_cycle fetch clients cache).pushes
      = (allSymbolsList clients).flatMap (fun sym =>
          match fetch sym with
          | some dd => pushesFor clients sym dd
          | none => []) := by
    unfold broadcast_cycle
    rw [cycle_pushes]
    rfl
  have hsource : ∀ p ∈ (broadcast_cycle fetch clients cache).pushes,
      ∃ s dd, p.msg = OutMsg.stock_update s dd ∧ fetch s = some dd := by
    intro p hp
    rw [hpushes] at hp
    rcases List.mem_flatMap.mp hp with ⟨s, hs, hpf⟩
    cases hf : fetch s with
    | none =>
      rw [hf] at hpf
      simp at hpf
    | some dd =>
      rw [hf] at hpf
      refine ⟨s, dd, ?_, hf⟩
      unfold pushesFor at hpf
      rcases List.mem_map.mp hpf with ⟨e, _, hpe⟩
      rw [← hpe]
  refine ⟨?_, ?_, ?_, ?_, hsource, ?_, ?_⟩
  · unfold broadcast_cycle
    exact cycle_cache_hit fetch clients _ _ B d (nodup_allSymbolsList clients)
      hBlist hB
  · intro e he hBe
    rw [hpushes]
    apply List.mem_flatMap.mpr
    refine ⟨B, hBlist, ?_⟩
    rw [hB]
    unfold pushesFor
    apply List.mem_map.mpr
    exact ⟨e, List.mem_filter.mpr ⟨he, by simpa using hBe⟩, rfl⟩
  · unfold broadcast_cycle
    exact cycle_cache_failed fetch clients _ _ A hA
  · intro p hp dd hmsg
    rcases hsource p hp with ⟨s, dd', hmsg', hfs⟩
    rw [hmsg] at hmsg'
    injection hmsg' with h1 h2
    rw [← h1, hA] at hfs
    exact Option.noConfusion hfs
  · unfold broadcast_cycle
    rw [cycle_fetched]
    rfl
  · exact run_cycles_length (fun _ => fetch) clients n cache

/-- Witness for C2: one connection subscribed to AAPL and MSFT; the
AAPL fetch fails, the MSFT fetch succeeds. -/
theorem cycle_fault_isolation_witness :
    cacheGet (broadcast_cycle
        (fun s => if s == "MSFT" then some ⟨1, 2, 3, 4, [], "t0"⟩ else none)
        [(0, {"AAPL", "MSFT"})] []).cache "MSFT" = some ⟨1, 2, 3, 4, [], "t0"⟩
      ∧ (⟨0, OutMsg.stock_update "MSFT" ⟨1, 2, 3, 4, [], "t0"⟩⟩ : Push)
          ∈ (broadcast_cycle
            (fun s => if s == "MSFT" then some ⟨1, 2, 3, 4, [], "t0"⟩ else none)
            [(0, {"AAPL", "MSFT"})] []).pushes :=
  ⟨(cycle_fault_isolation
      (fun s => if s == "MSFT" then some ⟨1, 2, 3, 4, [], "t0"⟩ else none)
      [(0, {"AAPL", "MSFT"})] [] "AAPL" "MSFT" ⟨1, 2, 3, 4, [], "t0"⟩ 3
      (by decide) (by decide) (by decide) (by decide) (by decide)).1,
    (cycle_fault_isolation
      (fun s => if s == "MSFT" then some ⟨1, 2, 3, 4, [], "t0"⟩ else none)
      [(0, {"AAPL", "MSFT"})] [] "AAPL" "MSFT" ⟨1, 2, 3, 4, [], "t0"⟩ 3
      (by decide) (by decide) (by decide) (by decide) (by decide)).2.1
      (0, {"AAPL", "MSFT"}) (by decide) (by decide)⟩

/-- C8: a message that fails to parse, or parses to an action other than
subscribe/unsubscribe/ping, leaves every server state unchanged and
produces no reply; the handler simply continues with the remaining
messages; and a connection's life cycle registers and unregisters it
exactly once, the unregistration happening at transport closure. -/
theorem bad_message_harmless (now : String) (st : ServerState) (ws : Conn)
    (m : InMsg) (rest : List InMsg)
    (hbad : m = InMsg.parseFailure ∨
      ∃ a sym, m = InMsg.msg a sym ∧ a ≠ some "subscribe"
        ∧ a ≠ some "unsubscribe" ∧ a ≠ some "ping") :
    (∀ st' : ServerState, handle_message now st' ws m = (st', []))
      ∧ handler now st ws (m :: rest) = handler now st ws rest
      ∧ (handler now st ws rest).2.2
          = [Event.registered ws, Event.unregistered ws] := by
  have hmsg : ∀ st' : ServerState, handle_message now st' ws m = (st', []) := by
    intro st'
    rcases hbad with rfl | ⟨a, sym, rfl, h1, h2, h3⟩
    · rfl
    · have hb1 : (a == some "subscribe") = false := by simpa using h1
      have hb2 : (a == some "unsubscribe") = false := by simpa using h2
      have hb3 : (a == some "ping") = false := by simpa using h3
      simp [handle_message, hb1, hb2, hb3]
  refine ⟨hmsg, ?_, rfl⟩
  unfold handler
  rw [List.foldl_cons]
  have hstep : handler_turn now ws (register st ws, []) m = (register st ws, []) := by
    unfold handler_turn
    rw [hmsg (register st ws)]
    rfl
  rw [hstep]

/-- Witness for C8: a parse failure on a one-client registry. -/
theorem bad_message_harmless_witness :
    handle_message "t0" ⟨[(0, ∅)], [], true, none⟩ 0 InMsg.parseFailure
        = ((⟨[(0, ∅)], [], true, none⟩ : ServerState), [])
      ∧ handler "t0" ⟨[(0, ∅)], [], true, none⟩ 0 [InMsg.parseFailure]
        = handler "t0" ⟨[(0, ∅)], [], true, none⟩ 0 [] :=
  ⟨(bad_message_harmless "t0" ⟨[(0, ∅)], [], true, none⟩ 0 InMsg.parseFailure []
      (Or.inl rfl)).1 ⟨[(0, ∅)], [], true, none⟩,
    (bad_message_harmless "t0" ⟨[(0, ∅)], [], true, none⟩ 0 InMsg.parseFailure []
      (Or.inl rfl)).2.1⟩

/-- Running a sequence of subscribe/unsubscribe messages through the
server acts on the connection's own set as the pure fold of `applyOp`. -/
theorem runOps_subs (ws : Conn) :
    ∀ (ops : List SubOp) (st : ServerState) (S : Finset Symbol),
      dictGet st.clients ws = some S →
      dictGet (runOps st ws ops).clients ws = some (ops.foldl applyOp S) := by
  intro ops
  induction ops with
  | nil =>
    intro st S h
    exact h
  | cons op l ih =>
    intro st S h
    unfold runOps
    rw [List.foldl_cons]
    cases op with
    | sub sym =>
      have hnext := (subscribe_state st ws sym S h).1
      have := ih (subscribe st ws sym).1 (insert (upper sym) S) hnext
      unfold runOps at this
      exact this
    | unsub sym =>
      have hnext := (unsubscribe_state st ws sym S h).1
      have := ih (unsubscribe st ws sym)
        (if (upper sym) ∈ S then S.erase (upper sym) else S) hnext
      unfold runOps at this
      exact this

/-- Membership after folding `applyOp` is decided by the last operation
whose normalised symbol matches. -/
theorem mem_foldl_applyOp (u : Symbol) :
    ∀ (ops : List SubOp) (S : Finset Symbol),
      u ∈ ops.foldl applyOp S ↔
        (match ops.reverse.find? (fun op => op.key == u) with
         | some (SubOp.sub _) => True
         | some (SubOp.unsub _) => False
         | none => u ∈ S) := by
  intro ops
  induction ops with
  | nil =>
    intro S
    simp
  | cons op l ih =>
    intro S
    rw [List.foldl_cons, ih, List.reverse_cons, List.find?_append]
    cases hfl : l.reverse.find? (fun op => op.key == u) with
    | some op2 =>
      rw [Option.or_some]
      cases op2 <;> simp
    | none =>
      rw [Option.none_or]
      cases hku : (op.key == u) with
      | true =>
        rw [@List.find?_cons_of_pos _ (fun op => op.key == u) op _ hku]
        have hk : op.key = u := by simpa using hku
        cases op with
        | sub s =>
          have hs : upper s = u := hk
          simp [applyOp, hs]
        | unsub s =>
          have hs : upper s = u := hk
          by_cases huS : u ∈ S
          · simp [applyOp, hs, huS]
          · simp [applyOp, hs, huS]
      | false =>
        rw [@List.find?_cons_of_neg _ (fun op => op.key == u) op _ (by simp [hku])]
        have hk : op.key ≠ u := by simpa using hku
        cases op with
        | sub s =>
          have hs : ¬ (u = upper s) := fun h => hk h.symm
          simp [applyOp, Finset.mem_insert, hs]
        | unsub s =>
          have hs : ¬ (u = upper s) := fun h => hk h.symm
          by_cases huS : (upper s) ∈ S
          · simp [applyOp, huS, Finset.mem_erase, hs]
          · simp [applyOp, huS]

/-- C1: starting from registration, any finite sequence of
subscribe/unsubscribe messages leaves the connection's subscription set
obeying set semantics over uppercased symbols: a further subscribe
inserts the uppercased symbol and is a no-op on a member, unsubscribe
erases it and is a no-op on a non-member, and membership is exactly
"the last matching operation was a subscribe". -/
theorem subscription_set_semantics (st : ServerState) (ws : Conn) (ops : List SubOp) :
    ∃ S : Finset Symbol,
      dictGet (runOps (register st ws) ws ops).clients ws = some S
      ∧ (∀ u : Symbol, u ∈ S ↔ lastOpIsSub ops u = true)
      ∧ (∀ sym : String,
          dictGet ((subscribe (runOps (register st ws) ws ops) ws sym).1).clients ws
            = some (insert (upper sym) S))
      ∧ (∀ sym : String, (upper sym) ∈ S →
          dictGet ((subscribe (runOps (register st ws) ws ops) ws sym).1).clients ws
            = some S)
      ∧ (∀ sym : String, (upper sym) ∈ S →
          dictGet (unsubscribe (runOps (register st ws) ws ops) ws sym).clients ws
            = some (S.erase (upper sym)))
      ∧ (∀ sym : String, (upper sym) ∉ S →
          unsubscribe (runOps (register st ws) ws ops) ws sym
            = runOps (register st ws) ws ops) := by
  have h0 : dictGet (register st ws).clients ws = some ∅ :=
    dictGet_dictSet_self st.clients ws ∅
  have hS : dictGet (runOps (register st ws) ws ops).clients ws
      = some (ops.foldl applyOp ∅) := runOps_subs ws ops (register st ws) ∅ h0
  refine ⟨ops.foldl applyOp ∅, hS, ?_, ?_, ?_, ?_, ?_⟩
  · intro u
    rw [mem_foldl_applyOp]
    unfold lastOpIsSub
    cases hf : ops.reverse.find? (fun op => op.key == u) with
    | none => simp
    | some op => cases op <;> simp
  · intro sym
    exact (subscribe_state _ ws sym _ hS).1
  · intro sym hm
    have := (subscribe_state _ ws sym _ hS).1
    rw [Finset.insert_eq_self.mpr hm] at this
    exact this
  · intro sym hm
    have := (unsubscribe_state _ ws sym _ hS).1
    rw [if_pos hm] at this
    exact this
  · intro sym hm
    have hguard : (dictGet (runOps (register st ws) ws ops).clients ws).elim false
        (fun s => (upper sym) ∈ s) = false := by
      rw [hS]
      simpa using hm
    unfold unsubscribe
    rw [hguard, if_neg (by simp)]

/-- Witness for C1: subscribe twice (mixed case) then unsubscribe once
leaves the fresh connection not subscribed. -/
theorem subscription_set_semantics_witness :
    ∃ S : Finset Symbol,
      dictGet (runOps (register ⟨[], [], true, none⟩ 0) 0
          [SubOp.sub "aapl", SubOp.sub "AAPL", SubOp.unsub "Aapl"]).clients 0
        = some S := by
  obtain ⟨S, hS, -⟩ := subscription_set_semantics ⟨[], [], true, none⟩ 0
    [SubOp.sub "aapl", SubOp.sub "AAPL", SubOp.unsub "Aapl"]
  exact ⟨S, hS⟩

end StockWS
